import Mathlib

/-!
# Verification of the CDSSM training script (`clsm_pytorch.py`)

A shallow embedding of the training/evaluation driver of the CDSSM
repository, together with theorems settling the specification's claims.

Modelling conventions:
* Python floats are modelled as rationals (`ℚ`); `int(x)` on the
  nonnegative values appearing here is `Int.floor` followed by `Int.toNat`.
* The CDSSM model, the `BCEWithLogitsLoss` criterion and the Adam
  optimizer step are external to this file's scope and are passed in as
  opaque functions (`forward`, `criterion`, `optStep`).
* Python's `%` raises `ZeroDivisionError` on a zero modulus; this is
  modelled by `pyMod` returning `Option` and the loops propagating `none`.
* Tensors flattened with `.view(-1)` are modelled as `List ℚ`.
-/

/-- One collated batch yielded by a dataloader: the tuple
`(claims, evidences, labels)` unpacked at lines 119/172 of
`clsm_pytorch.py`.  The tensor contents are abstracted to flat rational
lists; `labels` is the flattened label tensor `y`. -/
structure Batch where
  claims : List ℚ
  evidences : List ℚ
  labels : List ℚ
deriving DecidableEq, Inhabited

/-- `torch.sigmoid(x).round()` applied to one logit (lines 138/189).
`sigmoid x > 1/2 ↔ x > 0`, `sigmoid x < 1/2 ↔ x < 0`, and at `x = 0`
the value `1/2` rounds to `0` under round-half-to-even, so the rounded
prediction is `1` exactly when the logit is positive. -/
def predRound (x : ℚ) : ℚ := if 0 < x then 1 else 0

/-- Lines 138-140 (and 189-190): `predictions = sigmoid(y_pred).round()`;
`accuracy = (y == predictions).float().mean()` — the mean of the
elementwise equality indicators between the flattened labels and the
rounded predictions. -/
def batchAccuracy (y y_pred : List ℚ) : ℚ :=
  let predictions := y_pred.map predRound
  (((y.zip predictions).map (fun p => if p.1 = p.2 then (1 : ℚ) else 0)).sum)
    / ((y.zip predictions).length : ℚ)

/-- `sklearn.metrics.recall_score(y, predictions)` with binary labels
(lines 147/195): true positives over actual positives, `0` when the
batch has no positive label. -/
def recallScore (yTrue yPred : List ℚ) : ℚ :=
  let pairs := yTrue.zip yPred
  let positives := pairs.countP (fun p => p.1 == 1)
  let truePos := pairs.countP (fun p => p.1 == 1 && p.2 == 1)
  if positives = 0 then 0 else (truePos : ℚ) / (positives : ℚ)

/-- Spec-worded restatement for comparison: the fraction of positions at
which the flattened label vector exactly matches the prediction obtained
by rounding the sigmoid of the flattened logits. -/
def matchFraction (y y_pred : List ℚ) : ℚ :=
  ((y.zip (y_pred.map predRound)).countP (fun p => p.1 == p.2) : ℚ) / (y.length : ℚ)

/-- Line 92: `OUTPUT_FREQ = int((len(train_dataset)/BATCH_SIZE)*0.02)`.
`0.02 = 2/100`; the value is nonnegative, so Python's truncating `int`
is the floor. -/
def OUTPUT_FREQ (lenTrainDataset BATCH_SIZE : ℕ) : ℕ :=
  (⌊((lenTrainDataset : ℚ) / (BATCH_SIZE : ℚ)) * (2 / 100)⌋).toNat

/-- Line 81: `train_size = int(len(train) * 0.8)`; `0.8 = 8/10`, value
nonnegative, so `int` is the floor. -/
def train_size (N : ℕ) : ℕ := (⌊(N : ℚ) * (8 / 10)⌋).toNat

/-- Lines 83-84: the training split is `train[:train_size]` and the
validation split is `train[train_size:]`. -/
def datasetSplit {α : Type} (train : List α) : List α × List α :=
  (train.take (train_size train.length), train.drop (train_size train.length))

/-- The only failure mode exercised at startup: `joblib.load` on a
missing file raises `FileNotFoundError`. -/
inductive PyError where
  | fileNotFound (path : String)
deriving DecidableEq

/-- The CLI arguments of `parse_args` (lines 43-51). -/
structure Args where
  batch_size : ℕ
  data_batch_size : ℕ
  learning_rate : ℚ
  epochs : ℕ
  data : String
  sparse_evidences : Bool

/-- Defaults of `parse_args` (lines 45-50). -/
def parse_args_defaults : Args :=
  ⟨1, 8, 1 / 1000, 3, "data/large/train.pkl", false⟩

/-- `os.path.join` as used at lines 225 and 230 (POSIX separator). -/
def os_path_join (dir file : String) : String := dir ++ "/" ++ file

/-- `joblib.load(path)` against an abstract filesystem `fs`: returns the
stored object, or fails with `FileNotFoundError` when the path is absent. -/
def joblib_load {α : Type} (fs : String → Option α) (path : String) :
    Except PyError α :=
  match fs path with
  | some v => Except.ok v
  | none => Except.error (PyError.fileNotFound path)

/-- The data handed to `run(args, train, sparse_evidences, claims_dict)`
at line 242 when startup succeeds. -/
structure MainData (α : Type) where
  train : α
  sparse_evidences : Option α
  claims_dict : α

/-- The `__main__` block, lines 220-242: load `train.pkl` from the data
directory, then — only when `--sparse-evidences` is set — load
`evidence.pkl` from the same directory, then load `new_claims_dict.pkl`
(the `try claims_dict` at line 236 always fails with `NameError` in a
fresh process, so the `except` branch always loads).  `run` is invoked
exactly when this returns `Except.ok`. -/
def mainStartup {α : Type} (fs : String → Option α) (args : Args) :
    Except PyError (MainData α) := do
  let train ← joblib_load fs (os_path_join args.data "train.pkl")
  let sparse_evidences ←
    if args.sparse_evidences then do
      let e ← joblib_load fs (os_path_join args.data "evidence.pkl")
      pure (some e)
    else pure (none : Option α)
  let claims_dict ← joblib_load fs "new_claims_dict.pkl"
  pure ⟨train, sparse_evidences, claims_dict⟩

/-- Python's `%` operator on naturals: raises `ZeroDivisionError`
(modelled as `none`) when the modulus is zero. -/
def pyMod (a b : ℕ) : Option ℕ := if b = 0 then none else some (a % b)

/-- One console report of the training loop (line 147): batch number,
windowed mean loss, windowed mean accuracy, and recall over the current
batch only. -/
structure TrainReport where
  batch_num : ℕ
  loss : ℚ
  accuracy : ℚ
  recallVal : ℚ
deriving DecidableEq

/-- The Python locals of the training phase of one epoch
(lines 109-167): the evolving model parameters, the epoch-wide
accuracy sum `mean_train_acc`, the windowed running sums, the loop
variables `loss` and `inputs` (which survive the loop and are read by
the validation phase), and the reports printed so far.
`loss`/`inputs` are unbound in Python until the first batch; they are
initialised to dummies here and the epoch driver `runEpochO` rejects an
empty training loader (see its doc comment). -/
structure TrainState (M : Type) where
  model : M
  mean_train_acc : ℚ
  train_running_loss : ℚ
  train_running_accuracy : ℚ
  loss : ℚ
  inputs : Batch
  reports : List TrainReport

/-- Lines 111-115: the per-epoch zero initialisation of the metric
accumulators (together with the current model parameters). -/
def initTrainState {M : Type} (m : M) : TrainState M :=
  ⟨m, 0, 0, 0, 0, default, []⟩

variable {M : Type}

/-- The body of the training loop for batch number `i` (lines 118-167),
with the external collaborators passed in: `forward` is the CDSSM model
applied to (claims, evidences) yielding flattened logits, `criterion`
is `BCEWithLogitsLoss`, and `optStep` is
`zero_grad(); loss.backward(); optimizer.step()` as an opaque parameter
update from the current batch.  Accumulation (lines 141-143) happens
before the report test `train_batch_num % OUTPUT_FREQ == 0 and
train_batch_num > 0` (line 145, `none` on a zero modulus), the report
resets the windowed sums (lines 162-164), and the optimizer step
(lines 165-167) runs unconditionally afterwards. -/
def trainStepO (forward : M → List ℚ → List ℚ → List ℚ)
    (criterion : List ℚ → List ℚ → ℚ) (optStep : M → Batch → M)
    (F i : ℕ) (b : Batch) (s : TrainState M) : Option (TrainState M) :=
  let y := b.labels
  let y_pred := forward s.model b.claims b.evidences
  let lossVal := criterion y_pred y
  let predictions := y_pred.map predRound
  let accuracy := batchAccuracy y y_pred
  let s1 : TrainState M :=
    { s with inputs := b, loss := lossVal,
             train_running_accuracy := s.train_running_accuracy + accuracy,
             mean_train_acc := s.mean_train_acc + accuracy,
             train_running_loss := s.train_running_loss + lossVal }
  match pyMod i F with
  | none => none
  | some m =>
    let s2 : TrainState M :=
      if m = 0 ∧ 0 < i then
        { s1 with
            reports := s1.reports ++
              [⟨i, s1.train_running_loss / (F : ℚ), s1.train_running_accuracy / (F : ℚ),
                recallScore y predictions⟩],
            train_running_loss := 0, train_running_accuracy := 0 }
      else s1
    some { s2 with model := optStep s2.model b }

/-- The training loop from batch number `i` on (lines 118-167),
propagating the `ZeroDivisionError` of `trainStepO`. -/
def trainLoopFromO (forward : M → List ℚ → List ℚ → List ℚ)
    (criterion : List ℚ → List ℚ → ℚ) (optStep : M → Batch → M) (F : ℕ) :
    ℕ → TrainState M → List Batch → Option (TrainState M)
  | _, s, [] => some s
  | i, s, b :: rest =>
    match trainStepO forward criterion optStep F i b s with
    | none => none
    | some s' => trainLoopFromO forward criterion optStep F (i + 1) s' rest

/-- Total version of `trainStepO`, agreeing with it whenever
`OUTPUT_FREQ` is positive (`trainStepO_eq_some`). -/
def trainStep (forward : M → List ℚ → List ℚ → List ℚ)
    (criterion : List ℚ → List ℚ → ℚ) (optStep : M → Batch → M)
    (F i : ℕ) (b : Batch) (s : TrainState M) : TrainState M :=
  let y := b.labels
  let y_pred := forward s.model b.claims b.evidences
  let lossVal := criterion y_pred y
  let predictions := y_pred.map predRound
  let accuracy := batchAccuracy y y_pred
  let s1 : TrainState M :=
    { s with inputs := b, loss := lossVal,
             train_running_accuracy := s.train_running_accuracy + accuracy,
             mean_train_acc := s.mean_train_acc + accuracy,
             train_running_loss := s.train_running_loss + lossVal }
  let s2 : TrainState M :=
    if i % F = 0 ∧ 0 < i then
      { s1 with
          reports := s1.reports ++
            [⟨i, s1.train_running_loss / (F : ℚ), s1.train_running_accuracy / (F : ℚ),
              recallScore y predictions⟩],
          train_running_loss := 0, train_running_accuracy := 0 }
    else s1
  { s2 with model := optStep s2.model b }

/-- Total version of `trainLoopFromO`. -/
def trainLoopFrom (forward : M → List ℚ → List ℚ → List ℚ)
    (criterion : List ℚ → List ℚ → ℚ) (optStep : M → Batch → M) (F : ℕ) :
    ℕ → TrainState M → List Batch → TrainState M
  | _, s, [] => s
  | i, s, b :: rest =>
    trainLoopFrom forward criterion optStep F (i + 1)
      (trainStep forward criterion optStep F i b s) rest

/-- One console report of the validation loop (line 195). -/
structure ValReport where
  batch_num : ℕ
  loss : ℚ
  accuracy : ℚ
  recallVal : ℚ
deriving DecidableEq

/-- The Python locals of the validation phase (lines 114-115, 169-211). -/
structure ValState where
  val_running_loss : ℚ
  val_running_accuracy : ℚ
  reports : List ValReport
deriving DecidableEq

/-- Lines 114-115: zero initialisation of the validation accumulators. -/
def initValState : ValState := ⟨0, 0, []⟩

/-- The body of the validation loop for batch number `i`
(lines 171-211).  Line 171 binds `_val_inputs` (the batch actually
yielded by `val_dataloader`), but line 172 unpacks
`claims, evidences, labels = inputs` — the training loop's last-seen
batch, passed here as `inputs`; `_val_inputs` is never read.  Likewise
line 192 adds `loss.item()`, the loss of the final training batch,
passed here as `lossVar`; no loss is computed in this loop.  The model
is in `eval()` mode and never updated, so `model` is a fixed parameter. -/
def valStepO (forward : M → List ℚ → List ℚ → List ℚ)
    (F : ℕ) (model : M) (inputs : Batch) (lossVar : ℚ)
    (i : ℕ) (_val_inputs : Batch) (s : ValState) : Option ValState :=
  let y := inputs.labels
  let y_pred := forward model inputs.claims inputs.evidences
  let predictions := y_pred.map predRound
  let accuracy := batchAccuracy y y_pred
  let s1 : ValState :=
    { s with val_running_accuracy := s.val_running_accuracy + accuracy,
             val_running_loss := s.val_running_loss + lossVar }
  match pyMod i F with
  | none => none
  | some m =>
    if m = 0 ∧ 0 < i then
      some { s1 with
               reports := s1.reports ++
                 [⟨i, s1.val_running_loss / (F : ℚ), s1.val_running_accuracy / (F : ℚ),
                   recallScore y predictions⟩],
               val_running_loss := 0, val_running_accuracy := 0 }
    else some s1

/-- The validation loop from batch number `i` on (lines 171-211). -/
def valLoopFromO (forward : M → List ℚ → List ℚ → List ℚ)
    (F : ℕ) (model : M) (inputs : Batch) (lossVar : ℚ) :
    ℕ → ValState → List Batch → Option ValState
  | _, s, [] => some s
  | i, s, vb :: rest =>
    match valStepO forward F model inputs lossVar i vb s with
    | none => none
    | some s' => valLoopFromO forward F model inputs lossVar (i + 1) s' rest

/-- Total version of `valStepO`. -/
def valStep (forward : M → List ℚ → List ℚ → List ℚ)
    (F : ℕ) (model : M) (inputs : Batch) (lossVar : ℚ)
    (i : ℕ) (_val_inputs : Batch) (s : ValState) : ValState :=
  let y := inputs.labels
  let y_pred := forward model inputs.claims inputs.evidences
  let predictions := y_pred.map predRound
  let accuracy := batchAccuracy y y_pred
  let s1 : ValState :=
    { s with val_running_accuracy := s.val_running_accuracy + accuracy,
             val_running_loss := s.val_running_loss + lossVar }
  if i % F = 0 ∧ 0 < i then
    { s1 with
        reports := s1.reports ++
          [⟨i, s1.val_running_loss / (F : ℚ), s1.val_running_accuracy / (F : ℚ),
            recallScore y predictions⟩],
        val_running_loss := 0, val_running_accuracy := 0 }
  else s1

/-- Total version of `valLoopFromO`. -/
def valLoopFrom (forward : M → List ℚ → List ℚ → List ℚ)
    (F : ℕ) (model : M) (inputs : Batch) (lossVar : ℚ) :
    ℕ → ValState → List Batch → ValState
  | _, s, [] => s
  | i, s, vb :: rest =>
    valLoopFrom forward F model inputs lossVar (i + 1)
      (valStep forward F model inputs lossVar i vb s) rest

/-- The batch at position `j` of a batch list (`default` off the end). -/
def batchAt (bs : List Batch) (j : ℕ) : Batch := bs.getD j default

/-- The model parameters entering batch `j`: `optStep` folded over the
first `j` batches. -/
def modelAt (optStep : M → Batch → M) (m0 : M) (bs : List Batch) : ℕ → M
  | 0 => m0
  | j + 1 => optStep (modelAt optStep m0 bs j) (batchAt bs j)

/-- The flattened labels `y` of batch `j`. -/
def yAt (bs : List Batch) (j : ℕ) : List ℚ := (batchAt bs j).labels

/-- The flattened logits `y_pred` of batch `j`. -/
def yPredAt (forward : M → List ℚ → List ℚ → List ℚ)
    (optStep : M → Batch → M) (m0 : M) (bs : List Batch) (j : ℕ) : List ℚ :=
  forward (modelAt optStep m0 bs j) (batchAt bs j).claims (batchAt bs j).evidences

/-- The `loss.item()` of batch `j`. -/
def lossAt (forward : M → List ℚ → List ℚ → List ℚ)
    (criterion : List ℚ → List ℚ → ℚ) (optStep : M → Batch → M)
    (m0 : M) (bs : List Batch) (j : ℕ) : ℚ :=
  criterion (yPredAt forward optStep m0 bs j) (yAt bs j)

/-- The `accuracy.item()` of batch `j`. -/
def accAt (forward : M → List ℚ → List ℚ → List ℚ)
    (optStep : M → Batch → M) (m0 : M) (bs : List Batch) (j : ℕ) : ℚ :=
  batchAccuracy (yAt bs j) (yPredAt forward optStep m0 bs j)

/-- The `recall_score` of batch `j`. -/
def recallAt (forward : M → List ℚ → List ℚ → List ℚ)
    (optStep : M → Batch → M) (m0 : M) (bs : List Batch) (j : ℕ) : ℚ :=
  recallScore (yAt bs j) ((yPredAt forward optStep m0 bs j).map predRound)

/-- The first batch index of the accumulation window that is open after
`n` batches have been processed: `0` until the first report, and one
past the most recent report index afterwards (reports happen at the
positive multiples of `F`, and the sums are reset there). -/
def windowStart (F n : ℕ) : ℕ := if n ≤ F then 0 else F * ((n - 1) / F) + 1

/-- Line 145 / line 194: a report is emitted at batch number `j` iff
`j` is a positive multiple of `F`. -/
def reportIdx (F j : ℕ) : Bool := decide (j % F = 0 ∧ 0 < j)

/-- The training report emitted at batch number `j` (line 147): window
sums divided by `F`, plus the recall of batch `j` alone. -/
def trainReportAt (forward : M → List ℚ → List ℚ → List ℚ)
    (criterion : List ℚ → List ℚ → ℚ) (optStep : M → Batch → M)
    (m0 : M) (bs : List Batch) (F j : ℕ) : TrainReport :=
  ⟨j, (∑ i ∈ Finset.Ico (windowStart F j) (j + 1), lossAt forward criterion optStep m0 bs i) / (F : ℚ),
    (∑ i ∈ Finset.Ico (windowStart F j) (j + 1), accAt forward optStep m0 bs i) / (F : ℚ),
    recallAt forward optStep m0 bs j⟩

/-- The per-batch accuracy value that the validation loop computes —
constant across the whole loop, since every iteration reads the same
`inputs` with the same frozen model. -/
def valAccuracy (forward : M → List ℚ → List ℚ → List ℚ)
    (model : M) (inputs : Batch) : ℚ :=
  batchAccuracy inputs.labels (forward model inputs.claims inputs.evidences)

/-- The recall value of every validation report — likewise constant. -/
def valRecall (forward : M → List ℚ → List ℚ → List ℚ)
    (model : M) (inputs : Batch) : ℚ :=
  recallScore inputs.labels ((forward model inputs.claims inputs.evidences).map predRound)

/-- The validation report emitted at batch number `j` (line 195): the
accumulation window holds `j + 1 - windowStart F j` copies of the
leftover training loss and of the constant accuracy. -/
def valReportAt (forward : M → List ℚ → List ℚ → List ℚ)
    (F : ℕ) (model : M) (inputs : Batch) (lossVar : ℚ) (j : ℕ) : ValReport :=
  ⟨j, ((j + 1 - windowStart F j : ℕ) : ℚ) * lossVar / (F : ℚ),
    ((j + 1 - windowStart F j : ℕ) : ℚ) * valAccuracy forward model inputs / (F : ℚ),
    valRecall forward model inputs⟩

/-- What happens at the end of one epoch (lines 213-218), as recorded
by the run: the epoch number, `train_acc`, the `best_accuracy` value
stored in the checkpoint dictionary, the `is_best` flag, and whether
`save_checkpoint` actually wrote a file. -/
structure EpochEvent where
  epoch : ℕ
  train_acc : ℚ
  persisted_best : ℚ
  is_best : Bool
  written : Bool
deriving DecidableEq

/-- Lines 53-59: `save_checkpoint(state, is_best)` writes the checkpoint
file iff `is_best`; returns whether a file was written. -/
def save_checkpoint (_state : ℚ) (is_best : Bool) : Bool := is_best

/-- The run-level state threaded across epochs: the model parameters,
`best_accuracy` (line 107, initialised to `0.0`), and the per-epoch
checkpoint events so far. -/
structure RunState (M : Type) where
  model : M
  best_accuracy : ℚ
  events : List EpochEvent

/-- One full epoch (lines 109-218): the training pass over `trainBs`,
the validation pass over `valBs` — which reads the training loop's
leftover `inputs` and `loss` — and the checkpoint decision.  An empty
training loader is rejected (`none`): in Python it would leave `inputs`
and `loss` unbound (a `NameError` in the validation loop) and make
line 213 divide by `len(train_dataloader) = 0`.  Line 215 first updates
`best_accuracy = max(train_acc, best_accuracy)` and line 216 then sets
`is_best = bool(train_acc >= best_accuracy)` against the updated value. -/
def runEpochO (forward : M → List ℚ → List ℚ → List ℚ)
    (criterion : List ℚ → List ℚ → ℚ) (optStep : M → Batch → M)
    (F : ℕ) (e : ℕ) (trainBs valBs : List Batch) (st : RunState M) :
    Option (RunState M) :=
  if trainBs.isEmpty then none else
  match trainLoopFromO forward criterion optStep F 0 (initTrainState st.model) trainBs with
  | none => none
  | some ts =>
    match valLoopFromO forward F ts.model ts.inputs ts.loss 0 initValState valBs with
    | none => none
    | some _vs =>
      let train_acc := ts.mean_train_acc / (trainBs.length : ℚ)
      let best' := max train_acc st.best_accuracy
      let is_best : Bool := decide (best' ≤ train_acc)
      let written := save_checkpoint best' is_best
      some { model := ts.model, best_accuracy := best',
             events := st.events ++ [⟨e, train_acc, best', is_best, written⟩] }

/-- The epoch loop (line 109), folding `runEpochO` over the epochs. -/
def runEpochsO (forward : M → List ℚ → List ℚ → List ℚ)
    (criterion : List ℚ → List ℚ → ℚ) (optStep : M → Batch → M) (F : ℕ) :
    RunState M → List (ℕ × List Batch × List Batch) → Option (RunState M)
  | st, [] => some st
  | st, (e, tbs, vbs) :: rest =>
    match runEpochO forward criterion optStep F e tbs vbs st with
    | none => none
    | some st' => runEpochsO forward criterion optStep F st' rest

/-- The whole of `run` (lines 61-218) as far as the claims reach:
`OUTPUT_FREQ` is computed once from the training-dataset size and the
batch size (line 92), `best_accuracy` starts at `0.0` (line 107), and
the epoch loop runs over epochs `0, …, NUM_EPOCHS - 1`, each epoch `e`
consuming the (shuffled) batch lists `trainBatches e` and
`valBatches e`. -/
def runO (forward : M → List ℚ → List ℚ → List ℚ)
    (criterion : List ℚ → List ℚ → ℚ) (optStep : M → Batch → M)
    (lenTrainDataset BATCH_SIZE NUM_EPOCHS : ℕ) (m0 : M)
    (trainBatches valBatches : ℕ → List Batch) : Option (RunState M) :=
  runEpochsO forward criterion optStep (OUTPUT_FREQ lenTrainDataset BATCH_SIZE)
    ⟨m0, 0, []⟩
    ((List.range NUM_EPOCHS).map (fun e => (e, trainBatches e, valBatches e)))

/-- The maximum mean training accuracy over the epochs before epoch `k`,
with the pre-run best `0.0`: the value of `best_accuracy` entering
epoch `k`. -/
def bestBefore (events : List EpochEvent) (k : ℕ) : ℚ :=
  ((events.take k).map EpochEvent.train_acc).foldl max 0

/-- The closed form of the training-loop state after `n` batches:
`mean_train_acc` holds every batch accuracy so far, the windowed sums
hold the batches since the last reset (`windowStart`), `loss`/`inputs`
are those of the last processed batch, and one report exists per
positive multiple of `F` reached. -/
def trainStateAt (forward : M → List ℚ → List ℚ → List ℚ)
    (criterion : List ℚ → List ℚ → ℚ) (optStep : M → Batch → M)
    (m0 : M) (bs : List Batch) (F n : ℕ) : TrainState M where
  model := modelAt optStep m0 bs n
  mean_train_acc := ∑ j ∈ Finset.range n, accAt forward optStep m0 bs j
  train_running_loss :=
    ∑ j ∈ Finset.Ico (windowStart F n) n, lossAt forward criterion optStep m0 bs j
  train_running_accuracy :=
    ∑ j ∈ Finset.Ico (windowStart F n) n, accAt forward optStep m0 bs j
  loss := if n = 0 then 0 else lossAt forward criterion optStep m0 bs (n - 1)
  inputs := if n = 0 then default else batchAt bs (n - 1)
  reports := ((List.range n).filter (fun j => reportIdx F j)).map
    (trainReportAt forward criterion optStep m0 bs F)

/-- The closed form of the validation-loop state after `n` batches:
every batch adds the same leftover loss `lossVar` and the same constant
accuracy, so the windowed sums are multiples of them. -/
def valStateAt (forward : M → List ℚ → List ℚ → List ℚ)
    (F : ℕ) (model : M) (inputs : Batch) (lossVar : ℚ) (n : ℕ) : ValState where
  val_running_loss := ((n - windowStart F n : ℕ) : ℚ) * lossVar
  val_running_accuracy :=
    ((n - windowStart F n : ℕ) : ℚ) * valAccuracy forward model inputs
  reports := ((List.range n).filter (fun j => reportIdx F j)).map
    (valReportAt forward F model inputs lossVar)

attribute [ext] TrainState ValState RunState

/-- The run-level bookkeeping invariant of the epoch loop: the current
`best_accuracy` is the running maximum (seeded with the pre-run best
`0.0`) of the recorded mean training accuracies, and every recorded
epoch persisted `max(train_acc, best so far)` into its checkpoint
dictionary, set `is_best` to whether its mean training accuracy reached
the best of all prior epochs, and wrote a checkpoint file exactly
when `is_best`. -/
def runInv {M : Type} (st : RunState M) : Prop :=
  st.best_accuracy = (st.events.map EpochEvent.train_acc).foldl max 0 ∧
  ∀ (k : ℕ) (hk : k < st.events.length),
    (st.events[k]).persisted_best =
      max (st.events[k]).train_acc (bestBefore st.events k) ∧
    (st.events[k]).written =
      decide (bestBefore st.events k ≤ (st.events[k]).train_acc) ∧
    (st.events[k]).is_best = (st.events[k]).written

-- ===== THEOREMS =====

/-- `train_size N ≤ N`: the floor of `N * 0.8` never exceeds `N`. -/
theorem train_size_le (N : ℕ) : train_size N ≤ N := by
  have h1 : (⌊(N : ℚ) * (8 / 10)⌋ : ℤ) ≤ ⌊((N : ℕ) : ℚ)⌋ := by
    apply Int.floor_le_floor
    have hN : (0 : ℚ) ≤ (N : ℚ) := by positivity
    nlinarith
  have h2 : (⌊((N : ℕ) : ℚ)⌋ : ℤ) = (N : ℤ) := Int.floor_natCast N
  have h3 : (⌊(N : ℚ) * (8 / 10)⌋ : ℤ) ≤ (N : ℤ) := h2 ▸ h1
  calc train_size N = (⌊(N : ℚ) * (8 / 10)⌋).toNat := rfl
    _ ≤ ((N : ℤ)).toNat := Int.toNat_le_toNat h3
    _ = N := Int.toNat_natCast N

/-- `OUTPUT_FREQ` is positive exactly when the training split has at
least `50 * BATCH_SIZE` examples. -/
theorem OUTPUT_FREQ_pos_iff (n b : ℕ) (hb : 0 < b) :
    0 < OUTPUT_FREQ n b ↔ 50 * b ≤ n := by
  have hb' : (0 : ℚ) < (b : ℚ) := by exact_mod_cast hb
  have key : (1 : ℚ) ≤ ((n : ℚ) / (b : ℚ)) * (2 / 100) ↔ 50 * b ≤ n := by
    rw [div_mul_eq_mul_div, one_le_div hb']
    constructor
    · intro h
      have h1 : (100 : ℚ) * b ≤ 2 * n := by nlinarith
      have h2 : 100 * b ≤ 2 * n := by exact_mod_cast h1
      omega
    · intro h
      have h1 : (100 : ℕ) * b ≤ 2 * n := by omega
      have h2 : (100 : ℚ) * b ≤ 2 * n := by exact_mod_cast h1
      nlinarith
  have floor_iff : (1 : ℤ) ≤ ⌊((n : ℚ) / (b : ℚ)) * (2 / 100)⌋ ↔
      (1 : ℚ) ≤ ((n : ℚ) / (b : ℚ)) * (2 / 100) := by
    rw [Int.le_floor]
    norm_num
  unfold OUTPUT_FREQ
  constructor
  · intro h
    exact key.mp (floor_iff.mp (by omega))
  · intro h
    have h1 := floor_iff.mpr (key.mpr h)
    omega

/-- The window start never exceeds the number of processed batches. -/
theorem windowStart_le (F n : ℕ) : windowStart F n ≤ n := by
  unfold windowStart
  split
  · omega
  · have hq : F * ((n - 1) / F) ≤ n - 1 := by
      rw [mul_comm]
      exact Nat.div_mul_le_self (n - 1) F
    omega

/-- Processing a batch that emits no report leaves the window start
unchanged. -/
theorem windowStart_succ_of_not_report (F n : ℕ) (hF : 0 < F)
    (h : ¬(n % F = 0 ∧ 0 < n)) : windowStart F (n + 1) = windowStart F n := by
  unfold windowStart
  by_cases h1 : n + 1 ≤ F
  · rw [if_pos h1, if_pos (by omega)]
  · have hn : 0 < n := by omega
    have hmod : n % F ≠ 0 := fun hm => h ⟨hm, hn⟩
    have hndvd : ¬ F ∣ n := by
      rintro ⟨c, rfl⟩
      exact hmod (Nat.mul_mod_right F c)
    have hFlt : F < n := by
      rcases Nat.lt_or_ge F n with h2 | h2
      · exact h2
      · have he : F = n := by omega
        exact absurd (he ▸ Nat.mod_self F) hmod
    rw [if_neg h1, if_neg (by omega)]
    have h2 : n - 1 + 1 = n := by omega
    have hdiv : n / F = (n - 1) / F := by
      conv_lhs => rw [← h2]
      rw [Nat.succ_div, if_neg (show ¬ F ∣ (n - 1 + 1) by rw [h2]; exact hndvd),
        Nat.add_zero]
    simp only [Nat.add_sub_cancel]
    rw [hdiv]

/-- Processing a batch that emits a report moves the window start past
that batch. -/
theorem windowStart_succ_of_report (F n : ℕ) (hF : 0 < F)
    (hmod : n % F = 0) (hn : 0 < n) : windowStart F (n + 1) = n + 1 := by
  have hdvd : F ∣ n := Nat.dvd_of_mod_eq_zero hmod
  have hFn : F ≤ n := Nat.le_of_dvd hn hdvd
  unfold windowStart
  rw [if_neg (by omega)]
  have h2 : F * (n / F) = n := Nat.mul_div_cancel' hdvd
  simp only [Nat.add_sub_cancel]
  omega

/-- With a positive `OUTPUT_FREQ` the training step never raises. -/
theorem trainStepO_eq_some (forward : M → List ℚ → List ℚ → List ℚ)
    (criterion : List ℚ → List ℚ → ℚ) (optStep : M → Batch → M)
    (F i : ℕ) (b : Batch) (s : TrainState M) (hF : 0 < F) :
    trainStepO forward criterion optStep F i b s =
      some (trainStep forward criterion optStep F i b s) := by
  unfold trainStepO trainStep pyMod
  rw [if_neg (by omega : ¬ F = 0)]

/-- With a positive `OUTPUT_FREQ` the training loop never raises and
agrees with its total version. -/
theorem trainLoopFromO_eq_some (forward : M → List ℚ → List ℚ → List ℚ)
    (criterion : List ℚ → List ℚ → ℚ) (optStep : M → Batch → M)
    (F : ℕ) (hF : 0 < F) (bs : List Batch) :
    ∀ (i : ℕ) (s : TrainState M),
      trainLoopFromO forward criterion optStep F i s bs =
        some (trainLoopFrom forward criterion optStep F i s bs) := by
  induction bs with
  | nil => intro i s; rfl
  | cons b rest ih =>
    intro i s
    rw [trainLoopFromO, trainLoopFrom,
      trainStepO_eq_some forward criterion optStep F i b s hF]
    exact ih _ _

/-- With a positive `OUTPUT_FREQ` the validation step never raises. -/
theorem valStepO_eq_some (forward : M → List ℚ → List ℚ → List ℚ)
    (F : ℕ) (model : M) (inputs : Batch) (lossVar : ℚ)
    (i : ℕ) (vb : Batch) (s : ValState) (hF : 0 < F) :
    valStepO forward F model inputs lossVar i vb s =
      some (valStep forward F model inputs lossVar i vb s) := by
  simp only [valStepO, valStep, pyMod, if_neg (show ¬ F = 0 by omega)]
  by_cases hc : i % F = 0 ∧ 0 < i
  · simp only [if_pos hc]
  · simp only [if_neg hc]

/-- With a positive `OUTPUT_FREQ` the validation loop never raises and
agrees with its total version. -/
theorem valLoopFromO_eq_some (forward : M → List ℚ → List ℚ → List ℚ)
    (F : ℕ) (model : M) (inputs : Batch) (lossVar : ℚ) (hF : 0 < F)
    (vs : List Batch) :
    ∀ (i : ℕ) (s : ValState),
      valLoopFromO forward F model inputs lossVar i s vs =
        some (valLoopFrom forward F model inputs lossVar i s vs) := by
  induction vs with
  | nil => intro i s; rfl
  | cons vb rest ih =>
    intro i s
    rw [valLoopFromO, valLoopFrom,
      valStepO_eq_some forward F model inputs lossVar i vb s hF]
    exact ih _ _

/-- Splitting the training loop at a list append. -/
theorem trainLoopFrom_append (forward : M → List ℚ → List ℚ → List ℚ)
    (criterion : List ℚ → List ℚ → ℚ) (optStep : M → Batch → M)
    (F : ℕ) (l1 l2 : List Batch) :
    ∀ (i : ℕ) (s : TrainState M),
      trainLoopFrom forward criterion optStep F i s (l1 ++ l2) =
        trainLoopFrom forward criterion optStep F (i + l1.length)
          (trainLoopFrom forward criterion optStep F i s l1) l2 := by
  induction l1 with
  | nil => intro i s; rfl
  | cons b rest ih =>
    intro i s
    simp only [List.cons_append, trainLoopFrom, List.length_cons, List.append_eq]
    rw [ih]
    have he : i + (rest.length + 1) = i + 1 + rest.length := by omega
    rw [he]

/-- Splitting the validation loop at a list append. -/
theorem valLoopFrom_append (forward : M → List ℚ → List ℚ → List ℚ)
    (F : ℕ) (model : M) (inputs : Batch) (lossVar : ℚ) (l1 l2 : List Batch) :
    ∀ (i : ℕ) (s : ValState),
      valLoopFrom forward F model inputs lossVar i s (l1 ++ l2) =
        valLoopFrom forward F model inputs lossVar (i + l1.length)
          (valLoopFrom forward F model inputs lossVar i s l1) l2 := by
  induction l1 with
  | nil => intro i s; rfl
  | cons b rest ih =>
    intro i s
    simp only [List.cons_append, valLoopFrom, List.length_cons, List.append_eq]
    rw [ih]
    have he : i + (rest.length + 1) = i + 1 + rest.length := by omega
    rw [he]

/-- C7: for every input dataset of `N` examples the training split has
exactly `⌊N * 0.8⌋` examples, the validation split has the remaining
`N - ⌊N * 0.8⌋` examples, and the two split sizes sum exactly to `N`. -/
theorem c7_dataset_split (α : Type) (train : List α) :
    (datasetSplit train).1.length = (⌊(train.length : ℚ) * (8 / 10)⌋).toNat ∧
    (datasetSplit train).2.length = train.length - train_size train.length ∧
    (datasetSplit train).1.length + (datasetSplit train).2.length = train.length := by
  have hle := train_size_le train.length
  refine ⟨?_, ?_, ?_⟩
  · have h1 : (datasetSplit train).1.length = train_size train.length := by
      simp [datasetSplit, List.length_take, Nat.min_eq_left hle]
    rw [h1]
    rfl
  · simp [datasetSplit, List.length_drop]
  · simp [datasetSplit, List.length_take, List.length_drop, Nat.min_eq_left hle]
    omega

/-- `bs.take (n + 1)` appends batch `n`. -/
theorem take_succ_batch (bs : List Batch) (n : ℕ) (h : n < bs.length) :
    bs.take (n + 1) = bs.take n ++ [batchAt bs n] := by
  rw [show batchAt bs n = bs.getD n default from rfl,
    List.getD_eq_getElem bs default h, List.take_concat_get']

/-- One training step starting from the closed-form state at `n`
produces the closed-form state at `n + 1`. -/
theorem trainStep_stateAt (forward : M → List ℚ → List ℚ → List ℚ)
    (criterion : List ℚ → List ℚ → ℚ) (optStep : M → Batch → M)
    (F : ℕ) (hF : 0 < F) (m0 : M) (bs : List Batch) (n : ℕ) :
    trainStep forward criterion optStep F n (batchAt bs n)
        (trainStateAt forward criterion optStep m0 bs F n) =
      trainStateAt forward criterion optStep m0 bs F (n + 1) := by
  have hle := windowStart_le F n
  by_cases hrep : n % F = 0 ∧ 0 < n
  · have hws1 := windowStart_succ_of_report F n hF hrep.1 hrep.2
    have hidx : reportIdx F n = true := by simp [reportIdx, hrep.1, hrep.2]
    simp only [trainStep, trainStateAt]
    rw [if_pos hrep]
    apply TrainState.ext
    · simp [modelAt]
    · simp [Finset.sum_range_succ, accAt, yAt, yPredAt]
    · simp [hws1]
    · simp [hws1]
    · simp [lossAt, yAt, yPredAt]
    · simp
    · rw [List.range_succ, List.filter_append, List.map_append]
      simp only [List.filter_cons, List.filter_nil, hidx, cond_true, if_true,
        List.map_cons, List.map_nil]
      simp only [trainReportAt]
      rw [Finset.sum_Ico_succ_top hle, Finset.sum_Ico_succ_top hle]
      simp [lossAt, accAt, recallAt, yAt, yPredAt]
  · have hws2 := windowStart_succ_of_not_report F n hF hrep
    have hidx : reportIdx F n = false := by
      simp only [reportIdx, decide_eq_false_iff_not]
      exact hrep
    simp only [trainStep, trainStateAt]
    rw [if_neg hrep]
    apply TrainState.ext
    · simp [modelAt]
    · simp [Finset.sum_range_succ, accAt, yAt, yPredAt]
    · have hsplit : (∑ j ∈ Finset.Ico (windowStart F n) (n + 1),
          lossAt forward criterion optStep m0 bs j) =
          (∑ j ∈ Finset.Ico (windowStart F n) n, lossAt forward criterion optStep m0 bs j) +
            lossAt forward criterion optStep m0 bs n := Finset.sum_Ico_succ_top hle _
      rw [hws2, hsplit]
      simp [lossAt, yAt, yPredAt]
    · have hsplit : (∑ j ∈ Finset.Ico (windowStart F n) (n + 1),
          accAt forward optStep m0 bs j) =
          (∑ j ∈ Finset.Ico (windowStart F n) n, accAt forward optStep m0 bs j) +
            accAt forward optStep m0 bs n := Finset.sum_Ico_succ_top hle _
      rw [hws2, hsplit]
      simp [accAt, yAt, yPredAt]
    · simp [lossAt, yAt, yPredAt]
    · simp
    · rw [List.range_succ, List.filter_append, List.map_append]
      simp [hidx]

/-- Characterisation of the training loop: after any prefix of `n`
batches the state is exactly `trainStateAt`. -/
theorem trainLoop_char (forward : M → List ℚ → List ℚ → List ℚ)
    (criterion : List ℚ → List ℚ → ℚ) (optStep : M → Batch → M)
    (F : ℕ) (hF : 0 < F) (m0 : M) (bs : List Batch) :
    ∀ n, n ≤ bs.length →
      trainLoopFrom forward criterion optStep F 0 (initTrainState m0) (bs.take n) =
        trainStateAt forward criterion optStep m0 bs F n := by
  intro n
  induction n with
  | zero =>
    intro _
    apply TrainState.ext <;>
      simp [trainLoopFrom, initTrainState, trainStateAt, modelAt, windowStart]
  | succ n ih =>
    intro hn
    have hn' : n < bs.length := by omega
    rw [take_succ_batch bs n hn', trainLoopFrom_append, ih (by omega)]
    have hlen : (bs.take n).length = n := by
      rw [List.length_take]; omega
    rw [hlen, Nat.zero_add]
    show trainStep forward criterion optStep F n (batchAt bs n)
        (trainStateAt forward criterion optStep m0 bs F n) =
      trainStateAt forward criterion optStep m0 bs F (n + 1)
    exact trainStep_stateAt forward criterion optStep F hF m0 bs n

theorem valStep_stateAt (forward : M → List ℚ → List ℚ → List ℚ)
    (F : ℕ) (hF : 0 < F) (model : M) (inputs : Batch) (lossVar : ℚ)
    (n : ℕ) (vb : Batch) :
    valStep forward F model inputs lossVar n vb
        (valStateAt forward F model inputs lossVar n) =
      valStateAt forward F model inputs lossVar (n + 1) := by
  have hle := windowStart_le F n
  have hnat : n + 1 - windowStart F n = (n - windowStart F n) + 1 := by omega
  by_cases hrep : n % F = 0 ∧ 0 < n
  · have hws1 := windowStart_succ_of_report F n hF hrep.1 hrep.2
    have hidx : reportIdx F n = true := by simp [reportIdx, hrep.1, hrep.2]
    simp only [valStep, valStateAt]
    rw [if_pos hrep]
    apply ValState.ext
    · simp [hws1]
    · simp [hws1]
    · rw [List.range_succ, List.filter_append, List.map_append]
      simp only [List.filter_cons, List.filter_nil, hidx, cond_true, if_true,
        List.map_cons, List.map_nil]
      simp only [valReportAt, valAccuracy, valRecall]
      rw [hnat]
      push_cast
      simp only [List.append_cancel_left_eq, List.cons.injEq, and_true,
        ValReport.mk.injEq, true_and]
      constructor <;> ring_nf
  · have hws2 := windowStart_succ_of_not_report F n hF hrep
    have hidx : reportIdx F n = false := by
      simp only [reportIdx, decide_eq_false_iff_not]
      exact hrep
    simp only [valStep, valStateAt]
    rw [if_neg hrep]
    apply ValState.ext
    · rw [hws2, hnat]
      push_cast
      ring
    · rw [hws2, hnat]
      simp only [valAccuracy]
      push_cast
      ring
    · rw [List.range_succ, List.filter_append, List.map_append]
      simp [hidx]

theorem valLoop_char (forward : M → List ℚ → List ℚ → List ℚ)
    (F : ℕ) (hF : 0 < F) (model : M) (inputs : Batch) (lossVar : ℚ)
    (vs : List Batch) :
    ∀ n, n ≤ vs.length →
      valLoopFrom forward F model inputs lossVar 0 initValState (vs.take n) =
        valStateAt forward F model inputs lossVar n := by
  intro n
  induction n with
  | zero =>
    intro _
    apply ValState.ext <;>
      simp [valLoopFrom, initValState, valStateAt, windowStart]
  | succ n ih =>
    intro hn
    have hn' : n < vs.length := by omega
    rw [take_succ_batch vs n hn', valLoopFrom_append, ih (by omega)]
    have hlen : (vs.take n).length = n := by
      rw [List.length_take]; omega
    rw [hlen, Nat.zero_add]
    show valStep forward F model inputs lossVar n (batchAt vs n)
        (valStateAt forward F model inputs lossVar n) =
      valStateAt forward F model inputs lossVar (n + 1)
    exact valStep_stateAt forward F hF model inputs lossVar n (batchAt vs n)

/-- The window start at a report index `F * q` beyond the first report. -/
theorem windowStart_mul (F q : ℕ) (hF : 0 < F) (hq : 2 ≤ q) :
    windowStart F (F * q) = F * q - F + 1 := by
  have hlt : F < F * q := by
    calc F = F * 1 := (Nat.mul_one F).symm
      _ < F * q := (Nat.mul_lt_mul_left hF).mpr (by omega)
  unfold windowStart
  rw [if_neg (by omega)]
  have h1 : F * (q - 1) = F * q - F * 1 := Nat.mul_sub F q 1
  rw [Nat.mul_one] at h1
  have h4 : F ≤ F * q := Nat.le_of_lt hlt
  have h2 : F * q - 1 = F * (q - 1) + (F - 1) := by omega
  have hdiv : (F * q - 1) / F = q - 1 := by
    rw [h2, Nat.mul_add_div hF]
    have h3 : (F - 1) / F = 0 := Nat.div_eq_of_lt (by omega)
    omega
  rw [hdiv]
  omega

/-- The ratio `len/batch * 0.02` is below one exactly when the training
set has fewer than `50 * batch` examples. -/
theorem OUTPUT_FREQ_ratio_lt_one_iff (n b : ℕ) (hb : 0 < b) :
    ((n : ℚ) / (b : ℚ)) * (2 / 100) < 1 ↔ n < 50 * b := by
  have hb' : (0 : ℚ) < (b : ℚ) := by exact_mod_cast hb
  rw [div_mul_eq_mul_div, div_lt_one hb']
  constructor
  · intro h
    have h1 : (2 : ℚ) * n < 100 * b := by nlinarith
    have h2 : 2 * n < 100 * b := by exact_mod_cast h1
    omega
  · intro h
    have h1 : (2 : ℕ) * n < 100 * b := by omega
    have h2 : (2 : ℚ) * n < 100 * b := by exact_mod_cast h1
    nlinarith

/-- The sum of equality indicators over a list of pairs is the count of
equal pairs. -/
theorem sum_indicator_eq_countP (l : List (ℚ × ℚ)) :
    ((l.map (fun p => if p.1 = p.2 then (1 : ℚ) else 0)).sum) =
      ((l.countP (fun p => p.1 == p.2) : ℕ) : ℚ) := by
  induction l with
  | nil => simp
  | cons a t ih =>
    by_cases h : a.1 = a.2
    · simp only [List.map_cons, List.sum_cons, List.countP_cons, ih, h, if_pos,
        beq_self_eq_true, if_true]
      push_cast
      ring
    · have hb : (a.1 == a.2) = false := by
        simp [beq_eq_false_iff_ne, h]
      simp only [List.map_cons, List.sum_cons, List.countP_cons, ih, if_neg h, hb]
      push_cast
      ring

/-- C3, counterexample: a training split of 2 examples exceeds a batch
size of 1, yet `OUTPUT_FREQ = int((2/1)*0.02) = 0` is not strictly
positive. -/
theorem c3_counterexample : 1 < 2 ∧ ¬ (0 < OUTPUT_FREQ 2 1) := by
  constructor
  · decide
  · intro h
    have h2 := (OUTPUT_FREQ_pos_iff 2 1 (by norm_num)).mp h
    omega

/-- C3, amended: `OUTPUT_FREQ` is computed as
`int((len(train_dataset)/BATCH_SIZE)*0.02)` (computed once per run,
before the epoch loop), and it is strictly positive iff the training
set has at least `50 * BATCH_SIZE` examples — merely exceeding
`BATCH_SIZE` does not suffice. -/
theorem c3_output_freq_amended (lenTrainDataset BATCH_SIZE : ℕ)
    (hb : 0 < BATCH_SIZE) :
    OUTPUT_FREQ lenTrainDataset BATCH_SIZE =
      (⌊((lenTrainDataset : ℚ) / (BATCH_SIZE : ℚ)) * (2 / 100)⌋).toNat ∧
    (0 < OUTPUT_FREQ lenTrainDataset BATCH_SIZE ↔
      50 * BATCH_SIZE ≤ lenTrainDataset) :=
  ⟨rfl, OUTPUT_FREQ_pos_iff lenTrainDataset BATCH_SIZE hb⟩

/-- Witness for C3's amended theorem at `len = 50`, `batch = 1`. -/
theorem c3_output_freq_amended_witness :
    0 < 1 ∧
    (OUTPUT_FREQ 50 1 = (⌊(((50 : ℕ) : ℚ) / ((1 : ℕ) : ℚ)) * (2 / 100)⌋).toNat ∧
      (0 < OUTPUT_FREQ 50 1 ↔ 50 * 1 ≤ 50)) :=
  ⟨by decide, c3_output_freq_amended 50 1 (by decide)⟩

/-- C6: for every training batch (flattened labels and logits of equal
positive length) the per-batch accuracy lies in `[0, 1]` and equals the
fraction of positions at which the flattened label vector exactly
matches the prediction obtained by rounding the sigmoid of the
flattened logits. -/
theorem c6_accuracy (y y_pred : List ℚ) (hlen : y.length = y_pred.length)
    (hne : y ≠ []) :
    0 ≤ batchAccuracy y y_pred ∧ batchAccuracy y y_pred ≤ 1 ∧
      batchAccuracy y y_pred = matchFraction y y_pred := by
  have hzlen : (y.zip (y_pred.map predRound)).length = y.length := by
    rw [List.length_zip, List.length_map, ← hlen, Nat.min_self]
  have hpos : 0 < y.length := List.length_pos.mpr hne
  have hcount : (y.zip (y_pred.map predRound)).countP (fun p => p.1 == p.2) ≤
      y.length := by
    calc (y.zip (y_pred.map predRound)).countP (fun p => p.1 == p.2)
        ≤ (y.zip (y_pred.map predRound)).length := List.countP_le_length _
      _ = y.length := hzlen
  have hacc : batchAccuracy y y_pred =
      (((y.zip (y_pred.map predRound)).countP (fun p => p.1 == p.2) : ℕ) : ℚ) /
        (y.length : ℚ) := by
    simp only [batchAccuracy]
    rw [sum_indicator_eq_countP, hzlen]
  have hpos' : (0 : ℚ) < (y.length : ℚ) := by exact_mod_cast hpos
  refine ⟨?_, ?_, ?_⟩
  · rw [hacc]
    positivity
  · rw [hacc, div_le_one hpos']
    exact_mod_cast hcount
  · rw [hacc]
    rfl

/-- Witness for C6 at `y = [1]`, `y_pred = [1]`. -/
theorem c6_accuracy_witness :
    ([(1 : ℚ)].length = [(1 : ℚ)].length) ∧ (([(1 : ℚ)] : List ℚ) ≠ []) ∧
    (0 ≤ batchAccuracy [1] [1] ∧ batchAccuracy [1] [1] ≤ 1 ∧
      batchAccuracy [1] [1] = matchFraction [1] [1]) :=
  ⟨rfl, by simp, c6_accuracy [1] [1] rfl (by simp)⟩

/-- C8: when `--sparse-evidences` is set and no `evidence.pkl` exists
under the `--data` path, startup fails with a file-not-found condition
before `run()` is invoked, hence before any epoch executes. -/
theorem c8_sparse_missing {α : Type} (fs : String → Option α) (args : Args)
    (hs : args.sparse_evidences = true)
    (he : fs (os_path_join args.data "evidence.pkl") = none) :
    (∃ p, mainStartup fs args = Except.error (PyError.fileNotFound p)) ∧
    ∀ d : MainData α, mainStartup fs args ≠ Except.ok d := by
  cases htrain : fs (os_path_join args.data "train.pkl") with
  | none =>
    have hmain : mainStartup fs args =
        Except.error (PyError.fileNotFound (os_path_join args.data "train.pkl")) := by
      simp [mainStartup, joblib_load, htrain, Bind.bind, Except.bind]
    exact ⟨⟨_, hmain⟩, fun d hd => by
      rw [hmain] at hd
      exact Except.noConfusion hd⟩
  | some tr =>
    have hmain : mainStartup fs args =
        Except.error (PyError.fileNotFound (os_path_join args.data "evidence.pkl")) := by
      simp [mainStartup, joblib_load, htrain, hs, he, Bind.bind, Except.bind]
    exact ⟨⟨_, hmain⟩, fun d hd => by
      rw [hmain] at hd
      exact Except.noConfusion hd⟩

/-- Witness for C8 on an empty filesystem. -/
theorem c8_sparse_missing_witness :
    ((Args.mk 1 8 (1 / 1000) 3 "data" true).sparse_evidences = true) ∧
    ((fun _ : String => (none : Option Unit))
        (os_path_join (Args.mk 1 8 (1 / 1000) 3 "data" true).data "evidence.pkl") =
      none) ∧
    ((∃ p, mainStartup (fun _ : String => (none : Option Unit))
          (Args.mk 1 8 (1 / 1000) 3 "data" true) =
        Except.error (PyError.fileNotFound p)) ∧
      ∀ d : MainData Unit,
        mainStartup (fun _ : String => (none : Option Unit))
            (Args.mk 1 8 (1 / 1000) 3 "data" true) ≠
          Except.ok d) :=
  ⟨rfl, rfl,
    c8_sparse_missing (fun _ => none) (Args.mk 1 8 (1 / 1000) 3 "data" true) rfl rfl⟩

/-- C9: if `len(train_dataset)/batch_size * 0.02 < 1` — equivalently,
the training split has fewer than `50 * batch_size` examples — then
`OUTPUT_FREQ = 0` and processing the very first training batch raises
the unguarded modulo-by-zero of line 145; the training loop is total
exactly under the precondition `len(train_dataset) ≥ 50 * batch_size`. -/
theorem c9_mod_zero_crash (forward : M → List ℚ → List ℚ → List ℚ)
    (criterion : List ℚ → List ℚ → ℚ) (optStep : M → Batch → M)
    (lenTrainDataset BATCH_SIZE : ℕ) (hb : 0 < BATCH_SIZE) :
    (((lenTrainDataset : ℚ) / (BATCH_SIZE : ℚ)) * (2 / 100) < 1 ↔
        lenTrainDataset < 50 * BATCH_SIZE) ∧
    (lenTrainDataset < 50 * BATCH_SIZE →
      OUTPUT_FREQ lenTrainDataset BATCH_SIZE = 0 ∧
      ∀ (s : TrainState M) (b : Batch) (rest : List Batch),
        trainStepO forward criterion optStep
          (OUTPUT_FREQ lenTrainDataset BATCH_SIZE) 0 b s = none ∧
        trainLoopFromO forward criterion optStep
          (OUTPUT_FREQ lenTrainDataset BATCH_SIZE) 0 s (b :: rest) = none) ∧
    (50 * BATCH_SIZE ≤ lenTrainDataset →
      ∀ (i : ℕ) (s : TrainState M) (bs : List Batch),
        trainLoopFromO forward criterion optStep
            (OUTPUT_FREQ lenTrainDataset BATCH_SIZE) i s bs =
          some (trainLoopFrom forward criterion optStep
            (OUTPUT_FREQ lenTrainDataset BATCH_SIZE) i s bs)) := by
  refine ⟨OUTPUT_FREQ_ratio_lt_one_iff lenTrainDataset BATCH_SIZE hb, ?_, ?_⟩
  · intro hlt
    have hF0 : OUTPUT_FREQ lenTrainDataset BATCH_SIZE = 0 := by
      have h1 := OUTPUT_FREQ_pos_iff lenTrainDataset BATCH_SIZE hb
      omega
    refine ⟨hF0, fun s b rest => ?_⟩
    rw [hF0]
    constructor
    · simp [trainStepO, pyMod]
    · rw [trainLoopFromO]
      simp [trainStepO, pyMod]
  · intro hge i s bs
    have hFpos : 0 < OUTPUT_FREQ lenTrainDataset BATCH_SIZE :=
      (OUTPUT_FREQ_pos_iff lenTrainDataset BATCH_SIZE hb).mpr hge
    exact trainLoopFromO_eq_some forward criterion optStep _ hFpos bs i s

/-- Witness for C9 at `len = 2`, `batch = 1`. -/
theorem c9_mod_zero_crash_witness :
    0 < 1 ∧
    (((((2 : ℕ) : ℚ) / ((1 : ℕ) : ℚ)) * (2 / 100) < 1 ↔ 2 < 50 * 1) ∧
    (2 < 50 * 1 →
      OUTPUT_FREQ 2 1 = 0 ∧
      ∀ (s : TrainState Unit) (b : Batch) (rest : List Batch),
        trainStepO (fun _ _ _ => ([] : List ℚ)) (fun _ _ => (0 : ℚ)) (fun m _ => m)
          (OUTPUT_FREQ 2 1) 0 b s = none ∧
        trainLoopFromO (fun _ _ _ => ([] : List ℚ)) (fun _ _ => (0 : ℚ)) (fun m _ => m)
          (OUTPUT_FREQ 2 1) 0 s (b :: rest) = none) ∧
    (50 * 1 ≤ 2 →
      ∀ (i : ℕ) (s : TrainState Unit) (bs : List Batch),
        trainLoopFromO (fun _ _ _ => ([] : List ℚ)) (fun _ _ => (0 : ℚ)) (fun m _ => m)
            (OUTPUT_FREQ 2 1) i s bs =
          some (trainLoopFrom (fun _ _ _ => ([] : List ℚ)) (fun _ _ => (0 : ℚ))
            (fun m _ => m) (OUTPUT_FREQ 2 1) i s bs))) :=
  ⟨by decide, c9_mod_zero_crash (fun _ _ _ => ([] : List ℚ)) (fun _ _ => (0 : ℚ))
    (fun m _ => m) 2 1 (by decide)⟩

/-- The validation loop's result depends only on the number of batches
yielded by `val_dataloader`, never on their contents: `valStepO` binds
its `_val_inputs` argument and never reads it. -/
theorem valLoopFromO_length_invariant (forward : M → List ℚ → List ℚ → List ℚ)
    (F : ℕ) (model : M) (inputs : Batch) (lossVar : ℚ) :
    ∀ (vs vs' : List Batch), vs.length = vs'.length →
      ∀ (i : ℕ) (s : ValState),
        valLoopFromO forward F model inputs lossVar i s vs =
          valLoopFromO forward F model inputs lossVar i s vs' := by
  intro vs
  induction vs with
  | nil =>
    intro vs' h i s
    cases vs' with
    | nil => rfl
    | cons b' t' => simp at h
  | cons b t ih =>
    intro vs' h i s
    cases vs' with
    | nil => simp at h
    | cons b' t' =>
      rw [valLoopFromO, valLoopFromO]
      have hstep : valStepO forward F model inputs lossVar i b s =
          valStepO forward F model inputs lossVar i b' s := rfl
      rw [hstep]
      cases valStepO forward F model inputs lossVar i b' s with
      | none => rfl
      | some s' => exact ih t' (by simpa using h) (i + 1) s'

/-- C4: every validation iteration unpacks claims, evidences and labels
from `inputs` — the training loop's last-seen batch — not from
`val_inputs`: the validation loop's entire outcome is unchanged when
the validation batches are replaced by any other list of the same
length, in particular by copies of `inputs` itself, so the batches the
validation dataloader yields are never used in any computation. -/
theorem c4_val_uses_train_inputs (forward : M → List ℚ → List ℚ → List ℚ)
    (F : ℕ) (model : M) (inputs : Batch) (lossVar : ℚ) (i : ℕ) (s : ValState)
    (vs vs' : List Batch) (hlen : vs.length = vs'.length) :
    valLoopFromO forward F model inputs lossVar i s vs =
      valLoopFromO forward F model inputs lossVar i s vs' ∧
    valLoopFromO forward F model inputs lossVar i s vs =
      valLoopFromO forward F model inputs lossVar i s
        (List.replicate vs.length inputs) :=
  ⟨valLoopFromO_length_invariant forward F model inputs lossVar vs vs' hlen i s,
    valLoopFromO_length_invariant forward F model inputs lossVar vs
      (List.replicate vs.length inputs) (by simp) i s⟩

/-- Witness for C4 on two different singleton validation lists. -/
theorem c4_val_uses_train_inputs_witness :
    ([Batch.mk [] [] []].length = [Batch.mk [1] [1] [1]].length) ∧
    (valLoopFromO (fun (_ : Unit) _ _ => ([] : List ℚ)) 1 () (Batch.mk [] [] []) 0 0
        initValState [Batch.mk [] [] []] =
      valLoopFromO (fun (_ : Unit) _ _ => ([] : List ℚ)) 1 () (Batch.mk [] [] []) 0 0
        initValState [Batch.mk [1] [1] [1]] ∧
    valLoopFromO (fun (_ : Unit) _ _ => ([] : List ℚ)) 1 () (Batch.mk [] [] []) 0 0
        initValState [Batch.mk [] [] []] =
      valLoopFromO (fun (_ : Unit) _ _ => ([] : List ℚ)) 1 () (Batch.mk [] [] []) 0 0
        initValState (List.replicate [Batch.mk [] [] []].length (Batch.mk [] [] []))) :=
  ⟨rfl, c4_val_uses_train_inputs (fun (_ : Unit) _ _ => ([] : List ℚ)) 1 ()
    (Batch.mk [] [] []) 0 0 initValState [Batch.mk [] [] []] [Batch.mk [1] [1] [1]] rfl⟩

/-- C5: with a positive `OUTPUT_FREQ` the training loop never raises,
and over any prefix of `n` batches: a report exists exactly for each
batch index that is a positive multiple of `OUTPUT_FREQ` (index mod
`OUTPUT_FREQ` zero and index positive), each report carries the
accumulated window sums divided by `OUTPUT_FREQ` together with the
recall of the reporting batch alone, and immediately after each
reporting batch the running loss and running accuracy sums are zero. -/
theorem c5_train_reports (forward : M → List ℚ → List ℚ → List ℚ)
    (criterion : List ℚ → List ℚ → ℚ) (optStep : M → Batch → M)
    (F : ℕ) (hF : 0 < F) (m0 : M) (bs : List Batch) (n : ℕ)
    (hn : n ≤ bs.length) :
    (trainLoopFromO forward criterion optStep F 0 (initTrainState m0) (bs.take n) =
        some (trainLoopFrom forward criterion optStep F 0 (initTrainState m0)
          (bs.take n))) ∧
    ((trainLoopFrom forward criterion optStep F 0 (initTrainState m0)
        (bs.take n)).reports =
      ((List.range n).filter (fun j => reportIdx F j)).map
        (trainReportAt forward criterion optStep m0 bs F)) ∧
    (∀ j, j % F = 0 → 0 < j → j < n →
      (trainLoopFrom forward criterion optStep F 0 (initTrainState m0)
          (bs.take (j + 1))).train_running_loss = 0 ∧
      (trainLoopFrom forward criterion optStep F 0 (initTrainState m0)
          (bs.take (j + 1))).train_running_accuracy = 0) := by
  refine ⟨trainLoopFromO_eq_some forward criterion optStep F hF (bs.take n) 0 _,
    ?_, ?_⟩
  · rw [trainLoop_char forward criterion optStep F hF m0 bs n hn]
    rfl
  · intro j hj1 hj2 hj3
    rw [trainLoop_char forward criterion optStep F hF m0 bs (j + 1) (by omega)]
    have hws := windowStart_succ_of_report F j hF hj1 hj2
    constructor <;> simp [trainStateAt, hws]

/-- Witness for C5 with `OUTPUT_FREQ = 1` over two batches. -/
theorem c5_train_reports_witness :
    0 < 1 ∧ 2 ≤ [Batch.mk [] [] [], Batch.mk [] [] []].length ∧
    ((trainLoopFromO (fun (_ : Unit) _ _ => [(1 : ℚ)]) (fun _ _ => (1 : ℚ))
          (fun m _ => m) 1 0 (initTrainState ())
          ([Batch.mk [] [] [], Batch.mk [] [] []].take 2) =
        some (trainLoopFrom (fun (_ : Unit) _ _ => [(1 : ℚ)]) (fun _ _ => (1 : ℚ))
          (fun m _ => m) 1 0 (initTrainState ())
          ([Batch.mk [] [] [], Batch.mk [] [] []].take 2))) ∧
    ((trainLoopFrom (fun (_ : Unit) _ _ => [(1 : ℚ)]) (fun _ _ => (1 : ℚ))
        (fun m _ => m) 1 0 (initTrainState ())
        ([Batch.mk [] [] [], Batch.mk [] [] []].take 2)).reports =
      ((List.range 2).filter (fun j => reportIdx 1 j)).map
        (trainReportAt (fun (_ : Unit) _ _ => [(1 : ℚ)]) (fun _ _ => (1 : ℚ))
          (fun m _ => m) () [Batch.mk [] [] [], Batch.mk [] [] []] 1)) ∧
    (∀ j, j % 1 = 0 → 0 < j → j < 2 →
      (trainLoopFrom (fun (_ : Unit) _ _ => [(1 : ℚ)]) (fun _ _ => (1 : ℚ))
          (fun m _ => m) 1 0 (initTrainState ())
          ([Batch.mk [] [] [], Batch.mk [] [] []].take (j + 1))).train_running_loss = 0 ∧
      (trainLoopFrom (fun (_ : Unit) _ _ => [(1 : ℚ)]) (fun _ _ => (1 : ℚ))
          (fun m _ => m) 1 0 (initTrainState ())
          ([Batch.mk [] [] [], Batch.mk [] [] []].take (j + 1))).train_running_accuracy = 0)) :=
  ⟨by decide, by decide,
    c5_train_reports (fun (_ : Unit) _ _ => [(1 : ℚ)]) (fun _ _ => (1 : ℚ))
      (fun m _ => m) 1 (by decide) () [Batch.mk [] [] [], Batch.mk [] [] []] 2
      (by decide)⟩

/-- C10, counterexample: with `OUTPUT_FREQ = 1`, a final training-batch
loss of `1` and two validation batches, the loop ends with
`val_running_loss = 0 ≠ 2 * 1` (not `k` times the training loss after
`k = 2` batches, because the report reset it) and its single report
shows loss `2 ≠ 1` (not the training-batch loss). -/
theorem c10_counterexample :
    valLoopFromO (fun (_ : Unit) _ _ => ([] : List ℚ)) 1 () (Batch.mk [] [] []) 1 0
        initValState [Batch.mk [] [] [], Batch.mk [] [] []] =
      some (ValState.mk 0 0 [ValReport.mk 1 2 0 0]) ∧
    ((0 : ℚ) ≠ 2 * 1) ∧ ((2 : ℚ) ≠ 1) := by
  refine ⟨?_, by norm_num, by norm_num⟩
  norm_num [valLoopFromO, valStepO, pyMod, initValState, batchAccuracy, recallScore]

/-- C10, amended: during validation no loss is ever computed — every
iteration adds the unchanged final-training-batch loss `lossVar` to
`val_running_loss` — so after `n` batches `val_running_loss` holds one
copy of `lossVar` per batch since the last report reset
(`n - windowStart F n` copies, i.e. `k * lossVar` after `k` batches
between resets), each periodic report's loss value is its window
multiple of `lossVar` divided by `OUTPUT_FREQ`, which equals `lossVar`
for every report after the first, while the first report (batch
`OUTPUT_FREQ`) shows `(OUTPUT_FREQ + 1) * lossVar / OUTPUT_FREQ`. -/
theorem c10_val_loss_amended (forward : M → List ℚ → List ℚ → List ℚ)
    (F : ℕ) (hF : 0 < F) (model : M) (inputs : Batch) (lossVar : ℚ)
    (vs : List Batch) (n : ℕ) (hn : n ≤ vs.length) :
    (valLoopFromO forward F model inputs lossVar 0 initValState (vs.take n) =
        some (valLoopFrom forward F model inputs lossVar 0 initValState
          (vs.take n))) ∧
    ((valLoopFrom forward F model inputs lossVar 0 initValState
        (vs.take n)).val_running_loss =
      ((n - windowStart F n : ℕ) : ℚ) * lossVar) ∧
    ((valLoopFrom forward F model inputs lossVar 0 initValState
        (vs.take n)).reports =
      ((List.range n).filter (fun j => reportIdx F j)).map
        (valReportAt forward F model inputs lossVar)) ∧
    (∀ j, j % F = 0 → F < j →
      (valReportAt forward F model inputs lossVar j).loss = lossVar) ∧
    ((valReportAt forward F model inputs lossVar F).loss =
      ((F : ℚ) + 1) * lossVar / (F : ℚ)) := by
  refine ⟨valLoopFromO_eq_some forward F model inputs lossVar hF (vs.take n) 0 _,
    ?_, ?_, ?_, ?_⟩
  · rw [valLoop_char forward F hF model inputs lossVar vs n hn]
    rfl
  · rw [valLoop_char forward F hF model inputs lossVar vs n hn]
    rfl
  · intro j hj1 hj2
    have hdvd : F ∣ j := Nat.dvd_of_mod_eq_zero hj1
    obtain ⟨q, rfl⟩ := hdvd
    have hq : 2 ≤ q := by
      rcases Nat.lt_or_ge q 2 with hq' | hq'
      · exfalso
        interval_cases q
        · simp at hj2
        · simp at hj2
      · exact hq'
    have hws := windowStart_mul F q hF hq
    have hlt : F < F * q := by
      calc F = F * 1 := (Nat.mul_one F).symm
        _ < F * q := (Nat.mul_lt_mul_left hF).mpr (by omega)
    simp only [valReportAt]
    rw [hws]
    have hnat : F * q + 1 - (F * q - F + 1) = F := by omega
    rw [hnat, mul_comm, mul_div_assoc,
      div_self (by exact_mod_cast hF.ne' : (F : ℚ) ≠ 0), mul_one]
  · simp only [valReportAt]
    have hws : windowStart F F = 0 := by
      unfold windowStart
      rw [if_pos (le_refl F)]
    rw [hws, Nat.sub_zero]
    push_cast
    ring

/-- Witness for C10's amended theorem with `OUTPUT_FREQ = 1` over two
validation batches. -/
theorem c10_val_loss_amended_witness :
    0 < 1 ∧ 2 ≤ [Batch.mk [] [] [], Batch.mk [] [] []].length ∧
    ((valLoopFromO (fun (_ : Unit) _ _ => ([] : List ℚ)) 1 () (Batch.mk [] [] []) 1 0
          initValState ([Batch.mk [] [] [], Batch.mk [] [] []].take 2) =
        some (valLoopFrom (fun (_ : Unit) _ _ => ([] : List ℚ)) 1 () (Batch.mk [] [] [])
          1 0 initValState ([Batch.mk [] [] [], Batch.mk [] [] []].take 2))) ∧
    ((valLoopFrom (fun (_ : Unit) _ _ => ([] : List ℚ)) 1 () (Batch.mk [] [] []) 1 0
        initValState ([Batch.mk [] [] [], Batch.mk [] [] []].take 2)).val_running_loss =
      ((2 - windowStart 1 2 : ℕ) : ℚ) * 1) ∧
    ((valLoopFrom (fun (_ : Unit) _ _ => ([] : List ℚ)) 1 () (Batch.mk [] [] []) 1 0
        initValState ([Batch.mk [] [] [], Batch.mk [] [] []].take 2)).reports =
      ((List.range 2).filter (fun j => reportIdx 1 j)).map
        (valReportAt (fun (_ : Unit) _ _ => ([] : List ℚ)) 1 () (Batch.mk [] [] []) 1)) ∧
    (∀ j, j % 1 = 0 → 1 < j →
      (valReportAt (fun (_ : Unit) _ _ => ([] : List ℚ)) 1 () (Batch.mk [] [] []) 1
        j).loss = 1) ∧
    ((valReportAt (fun (_ : Unit) _ _ => ([] : List ℚ)) 1 () (Batch.mk [] [] []) 1
        1).loss = ((1 : ℚ) + 1) * 1 / (1 : ℚ))) :=
  ⟨by decide, by decide,
    c10_val_loss_amended (fun (_ : Unit) _ _ => ([] : List ℚ)) 1 (by decide) ()
      (Batch.mk [] [] []) 1 [Batch.mk [] [] [], Batch.mk [] [] []] 2 (by decide)⟩

/-- Every element is a lower bound of a `foldl max` seeded with it. -/
theorem le_foldl_max (l : List ℚ) : ∀ a : ℚ, a ≤ l.foldl max a := by
  induction l with
  | nil => intro a; simp
  | cons x t ih =>
    intro a
    simp only [List.foldl_cons]
    exact le_trans (le_max_left a x) (ih (max a x))

/-- `bestBefore` ignores events appended past its index. -/
theorem bestBefore_append (l : List EpochEvent) (e : EpochEvent) (k : ℕ)
    (hk : k ≤ l.length) : bestBefore (l ++ [e]) k = bestBefore l k := by
  unfold bestBefore
  rw [List.take_append_of_le_length hk]

/-- `bestBefore` at the index of a newly appended event is the running
maximum over all previous events. -/
theorem bestBefore_append_len (l : List EpochEvent) (e : EpochEvent) :
    bestBefore (l ++ [e]) l.length = (l.map EpochEvent.train_acc).foldl max 0 := by
  unfold bestBefore
  rw [List.take_left]

/-- Taking one more element appends the element at that index. -/
theorem take_succ_get {β : Type} (l : List β) (k : ℕ) (hk : k < l.length) :
    l.take (k + 1) = l.take k ++ [l[k]] :=
  (List.take_concat_get' l k hk).symm

/-- `bestBefore` unfolds one step at an in-range index. -/
theorem bestBefore_succ (l : List EpochEvent) (k : ℕ) (hk : k < l.length) :
    bestBefore l (k + 1) = max (bestBefore l k) (l[k]).train_acc := by
  unfold bestBefore
  rw [take_succ_get l k hk, List.map_append, List.foldl_append]
  simp

/-- `bestBefore` is monotone in its index. -/
theorem bestBefore_mono (l : List EpochEvent) (j k : ℕ) (h : j ≤ k)
    (hk : k ≤ l.length) : bestBefore l j ≤ bestBefore l k := by
  induction k with
  | zero =>
    have hj : j = 0 := by omega
    simp [hj]
  | succ k ih =>
    rcases Nat.lt_or_ge j (k + 1) with hj | hj
    · have h1 : bestBefore l j ≤ bestBefore l k := ih (by omega) (by omega)
      rw [bestBefore_succ l k (by omega)]
      exact le_trans h1 (le_max_left _ _)
    · have hj' : j = k + 1 := by omega
      rw [hj']

/-- The shape of one epoch's effect on the run state: one event is
appended, carrying the epoch's `train_acc`, the updated best
(`max train_acc best`), and the checkpoint decision made against the
updated best (lines 215-218). -/
theorem runEpochO_events (forward : M → List ℚ → List ℚ → List ℚ)
    (criterion : List ℚ → List ℚ → ℚ) (optStep : M → Batch → M)
    (F e : ℕ) (tbs vbs : List Batch) (st st' : RunState M)
    (h : runEpochO forward criterion optStep F e tbs vbs st = some st') :
    ∃ a : ℚ,
      st'.events = st.events ++
        [⟨e, a, max a st.best_accuracy, decide (max a st.best_accuracy ≤ a),
          save_checkpoint (max a st.best_accuracy)
            (decide (max a st.best_accuracy ≤ a))⟩] ∧
      st'.best_accuracy = max a st.best_accuracy := by
  unfold runEpochO at h
  by_cases hemp : tbs.isEmpty
  · rw [if_pos hemp] at h
    exact absurd h (by simp)
  · rw [if_neg hemp] at h
    split at h
    · exact absurd h (by simp)
    · next ts hts =>
      split at h
      · exact absurd h (by simp)
      · next vsr hvs =>
        have hx := Option.some_inj.mp h
        subst hx
        exact ⟨ts.mean_train_acc / (tbs.length : ℚ), rfl, rfl⟩

/-- One epoch preserves the run invariant. -/
theorem runEpochO_inv (forward : M → List ℚ → List ℚ → List ℚ)
    (criterion : List ℚ → List ℚ → ℚ) (optStep : M → Batch → M)
    (F e : ℕ) (tbs vbs : List Batch) (st st' : RunState M)
    (h : runEpochO forward criterion optStep F e tbs vbs st = some st')
    (hI : runInv st) : runInv st' := by
  obtain ⟨a, hev, hbest⟩ := runEpochO_events forward criterion optStep F e tbs vbs st st' h
  obtain ⟨hI1, hI2⟩ := hI
  constructor
  · rw [hbest, hev, List.map_append, List.foldl_append, hI1]
    simp [max_comm]
  · intro k hk
    have hlen : st'.events.length = st.events.length + 1 := by
      rw [hev]
      simp
    by_cases hk' : k < st.events.length
    · have hbb : bestBefore st'.events k = bestBefore st.events k := by
        rw [hev]
        exact bestBefore_append _ _ k (by omega)
      have hget : st'.events[k] = st.events[k] := by
        simp only [hev]
        exact List.getElem_append_left hk'
      rw [hget, hbb]
      exact hI2 k hk'
    · have hkeq : k = st.events.length := by omega
      subst hkeq
      have hget : st'.events[st.events.length] =
          ⟨e, a, max a st.best_accuracy, decide (max a st.best_accuracy ≤ a),
            save_checkpoint (max a st.best_accuracy)
              (decide (max a st.best_accuracy ≤ a))⟩ := by
        simp only [hev]
        simp
      have hbb : bestBefore st'.events st.events.length =
          (st.events.map EpochEvent.train_acc).foldl max 0 := by
        rw [hev]
        exact bestBefore_append_len _ _
      rw [hget, hbb, ← hI1]
      refine ⟨by simp [max_comm], ?_, rfl⟩
      simp only [save_checkpoint, decide_eq_decide]
      constructor
      · intro h'
        exact le_trans (le_max_right a st.best_accuracy) h'
      · intro h'
        exact max_le (le_refl a) h'

/-- The epoch loop preserves the run invariant and appends exactly one
event per epoch. -/
theorem runEpochsO_inv (forward : M → List ℚ → List ℚ → List ℚ)
    (criterion : List ℚ → List ℚ → ℚ) (optStep : M → Batch → M) (F : ℕ) :
    ∀ (l : List (ℕ × List Batch × List Batch)) (st st' : RunState M),
      runEpochsO forward criterion optStep F st l = some st' → runInv st →
      runInv st' ∧ st'.events.length = st.events.length + l.length := by
  intro l
  induction l with
  | nil =>
    intro st st' h hI
    rw [runEpochsO] at h
    have hx := Option.some_inj.mp h
    subst hx
    exact ⟨hI, by simp⟩
  | cons ep rest ih =>
    obtain ⟨e, tbs, vbs⟩ := ep
    intro st st' h hI
    rw [runEpochsO] at h
    cases hep : runEpochO forward criterion optStep F e tbs vbs st with
    | none =>
      rw [hep] at h
      exact absurd h (by simp)
    | some stm =>
      rw [hep] at h
      obtain ⟨hI', hlen'⟩ := ih stm st' h
        (runEpochO_inv forward criterion optStep F e tbs vbs st stm hep hI)
      obtain ⟨a, hev, _⟩ := runEpochO_events forward criterion optStep F e tbs vbs st stm hep
      refine ⟨hI', ?_⟩
      rw [hlen', hev]
      simp
      omega

/-- A completed run satisfies the invariant and records one event per
epoch. -/
theorem runO_inv (forward : M → List ℚ → List ℚ → List ℚ)
    (criterion : List ℚ → List ℚ → ℚ) (optStep : M → Batch → M)
    (lenTrainDataset BATCH_SIZE NUM_EPOCHS : ℕ) (m0 : M)
    (trainBatches valBatches : ℕ → List Batch) (st : RunState M)
    (h : runO forward criterion optStep lenTrainDataset BATCH_SIZE NUM_EPOCHS m0
      trainBatches valBatches = some st) :
    runInv st ∧ st.events.length = NUM_EPOCHS := by
  have hinit : runInv (⟨m0, 0, []⟩ : RunState M) := by
    constructor
    · rfl
    · intro k hk
      simp at hk
  obtain ⟨hI, hlen⟩ := runEpochsO_inv forward criterion optStep
    (OUTPUT_FREQ lenTrainDataset BATCH_SIZE)
    ((List.range NUM_EPOCHS).map (fun ee => (ee, trainBatches ee, valBatches ee)))
    ⟨m0, 0, []⟩ st h hinit
  refine ⟨hI, ?_⟩
  rw [hlen]
  simp

/-- C1: in every completed run there is exactly one checkpoint decision
per epoch, and the checkpoint file is written at the end of epoch `k`
iff that epoch's mean training accuracy (`mean_train_acc` divided by
the number of training batches, recorded as `train_acc`) is at least
the maximum mean training accuracy of all prior epochs of the run, with
the pre-run best initialised to `0.0` (`bestBefore`). -/
theorem c1_checkpoint_iff (forward : M → List ℚ → List ℚ → List ℚ)
    (criterion : List ℚ → List ℚ → ℚ) (optStep : M → Batch → M)
    (lenTrainDataset BATCH_SIZE NUM_EPOCHS : ℕ) (m0 : M)
    (trainBatches valBatches : ℕ → List Batch) (st : RunState M)
    (h : runO forward criterion optStep lenTrainDataset BATCH_SIZE NUM_EPOCHS m0
      trainBatches valBatches = some st) :
    st.events.length = NUM_EPOCHS ∧
    ∀ (k : ℕ) (hk : k < st.events.length),
      ((st.events[k]).written = true ↔
        bestBefore st.events k ≤ (st.events[k]).train_acc) := by
  obtain ⟨hI, hlen⟩ := runO_inv forward criterion optStep lenTrainDataset
    BATCH_SIZE NUM_EPOCHS m0 trainBatches valBatches st h
  refine ⟨hlen, fun k hk => ?_⟩
  rw [(hI.2 k hk).2.1]
  simp

/-- C2: in every completed run the `best_accuracy` persisted inside the
checkpoint dictionary is monotonically non-decreasing across epochs,
and it differs from the best of the prior epochs only when the epoch's
mean training accuracy is at least that previous best. -/
theorem c2_persisted_best (forward : M → List ℚ → List ℚ → List ℚ)
    (criterion : List ℚ → List ℚ → ℚ) (optStep : M → Batch → M)
    (lenTrainDataset BATCH_SIZE NUM_EPOCHS : ℕ) (m0 : M)
    (trainBatches valBatches : ℕ → List Batch) (st : RunState M)
    (h : runO forward criterion optStep lenTrainDataset BATCH_SIZE NUM_EPOCHS m0
      trainBatches valBatches = some st) :
    (∀ (j k : ℕ) (hj : j < st.events.length) (hk : k < st.events.length),
      j ≤ k → (st.events[j]).persisted_best ≤ (st.events[k]).persisted_best) ∧
    (∀ (k : ℕ) (hk : k < st.events.length),
      (st.events[k]).persisted_best ≠ bestBefore st.events k →
        bestBefore st.events k ≤ (st.events[k]).train_acc) := by
  obtain ⟨hI, _⟩ := runO_inv forward criterion optStep lenTrainDataset
    BATCH_SIZE NUM_EPOCHS m0 trainBatches valBatches st h
  have hpb : ∀ (k : ℕ) (hk : k < st.events.length),
      (st.events[k]).persisted_best = bestBefore st.events (k + 1) := by
    intro k hk
    rw [(hI.2 k hk).1, bestBefore_succ st.events k hk, max_comm]
  constructor
  · intro j k hj hk hjk
    rw [hpb j hj, hpb k hk]
    exact bestBefore_mono st.events (j + 1) (k + 1) (by omega) (by omega)
  · intro k hk hne
    rw [(hI.2 k hk).1] at hne
    by_contra hle
    push_neg at hle
    exact hne (max_eq_right (le_of_lt hle))

/-- A concrete one-epoch run: one training batch with empty tensors, no
validation batches, `OUTPUT_FREQ = int((50/1)*0.02) = 1`; the epoch has
mean accuracy `0 ≥ 0.0`, so the checkpoint is written. -/
theorem runO_concrete :
    runO (fun (_ : Unit) _ _ => ([] : List ℚ)) (fun _ _ => (0 : ℚ)) (fun m _ => m)
        50 1 1 () (fun _ => [Batch.mk [] [] []]) (fun _ => ([] : List Batch)) =
      some (RunState.mk () 0 [EpochEvent.mk 0 0 0 true true]) := by
  have hfreq : OUTPUT_FREQ 50 1 = 1 := by
    unfold OUTPUT_FREQ
    norm_num
  unfold runO
  rw [hfreq]
  norm_num [runEpochsO, runEpochO, trainLoopFromO, trainStepO, pyMod, initTrainState,
    valLoopFromO, initValState, batchAccuracy, recallScore, save_checkpoint]

/-- Witness for C1 on the concrete one-epoch run. -/
theorem c1_checkpoint_iff_witness :
    (runO (fun (_ : Unit) _ _ => ([] : List ℚ)) (fun _ _ => (0 : ℚ)) (fun m _ => m)
        50 1 1 () (fun _ => [Batch.mk [] [] []]) (fun _ => ([] : List Batch)) =
      some (RunState.mk () 0 [EpochEvent.mk 0 0 0 true true])) ∧
    ((RunState.mk () 0 [EpochEvent.mk 0 0 0 true true] : RunState Unit).events.length = 1 ∧
      ∀ (k : ℕ)
        (hk : k < (RunState.mk () 0 [EpochEvent.mk 0 0 0 true true] :
          RunState Unit).events.length),
        (((RunState.mk () 0 [EpochEvent.mk 0 0 0 true true] :
            RunState Unit).events[k]).written = true ↔
          bestBefore (RunState.mk () 0 [EpochEvent.mk 0 0 0 true true] :
              RunState Unit).events k ≤
            ((RunState.mk () 0 [EpochEvent.mk 0 0 0 true true] :
              RunState Unit).events[k]).train_acc)) :=
  ⟨runO_concrete,
    c1_checkpoint_iff (fun (_ : Unit) _ _ => ([] : List ℚ)) (fun _ _ => (0 : ℚ))
      (fun m _ => m) 50 1 1 () (fun _ => [Batch.mk [] [] []])
      (fun _ => ([] : List Batch)) (RunState.mk () 0 [EpochEvent.mk 0 0 0 true true])
      runO_concrete⟩

/-- Witness for C2 on the concrete one-epoch run. -/
theorem c2_persisted_best_witness :
    (runO (fun (_ : Unit) _ _ => ([] : List ℚ)) (fun _ _ => (0 : ℚ)) (fun m _ => m)
        50 1 1 () (fun _ => [Batch.mk [] [] []]) (fun _ => ([] : List Batch)) =
      some (RunState.mk () 0 [EpochEvent.mk 0 0 0 true true])) ∧
    ((∀ (j k : ℕ)
        (hj : j < (RunState.mk () 0 [EpochEvent.mk 0 0 0 true true] :
          RunState Unit).events.length)
        (hk : k < (RunState.mk () 0 [EpochEvent.mk 0 0 0 true true] :
          RunState Unit).events.length),
        j ≤ k →
          (((RunState.mk () 0 [EpochEvent.mk 0 0 0 true true] :
              RunState Unit).events[j]).persisted_best ≤
            ((RunState.mk () 0 [EpochEvent.mk 0 0 0 true true] :
              RunState Unit).events[k]).persisted_best)) ∧
      ∀ (k : ℕ)
        (hk : k < (RunState.mk () 0 [EpochEvent.mk 0 0 0 true true] :
          RunState Unit).events.length),
        (((RunState.mk () 0 [EpochEvent.mk 0 0 0 true true] :
            RunState Unit).events[k]).persisted_best ≠
          bestBefore (RunState.mk () 0 [EpochEvent.mk 0 0 0 true true] :
            RunState Unit).events k →
          bestBefore (RunState.mk () 0 [EpochEvent.mk 0 0 0 true true] :
              RunState Unit).events k ≤
            ((RunState.mk () 0 [EpochEvent.mk 0 0 0 true true] :
              RunState Unit).events[k]).train_acc)) :=
  ⟨runO_concrete,
    c2_persisted_best (fun (_ : Unit) _ _ => ([] : List ℚ)) (fun _ _ => (0 : ℚ))
      (fun m _ => m) 50 1 1 () (fun _ => [Batch.mk [] [] []])
      (fun _ => ([] : List Batch)) (RunState.mk () 0 [EpochEvent.mk 0 0 0 true true])
      runO_concrete⟩
